import Mathlib

/-!
# balance-monitor: a shallow embedding of `cmd/apis.go` and `cmd/serve.go`

The development follows the Go source function by function.

* Go's `int` is modelled as `Int`, with the two's complement wrap-around of a
  64-bit platform made explicit (`wrapInt`) wherever the source does arithmetic.
* Go strings are Lean strings; the `strings` helpers the source calls are
  written out on the character data.
* A Go map is modelled by the list of its entries in the order one `range`
  loop visits them. Go leaves that order unspecified, so a statement about a
  map is a statement about every such list.
* The remote parties of one sampling round (the two HTTP endpoints, the wall
  clock, the sink) are collected in `World`; the code is a function of the
  monitor and of the world.
* The InfluxDB client is not part of the repository. A point is modelled by
  what `client.NewPoint` returns for the four arguments the source hands it:
  the measurement, the tags whose value is not empty, the fields and the
  timestamp. A batch is modelled by its configuration and the points added to
  it.
-/

namespace Cmd

/-! ## Machine integers -/

/-- Width of Go's `int` on a 64-bit platform. -/
def intBits : Nat := 64

/-- Smallest value of Go's `int`. -/
def minInt : Int := -(2 ^ (intBits - 1))

/-- Largest value of Go's `int`. -/
def maxInt : Int := 2 ^ (intBits - 1) - 1

/-- Reduction of a mathematical integer to the value the `int` register holds
(two's complement, silent wrap-around). -/
def wrapInt (x : Int) : Int :=
  (x + 2 ^ (intBits - 1)) % 2 ^ intBits - 2 ^ (intBits - 1)

/-- Go's `a * b` on `int`. -/
def mulInt (a b : Int) : Int := wrapInt (a * b)

/-- Membership in the range of Go's `int`. -/
def isInt (x : Int) : Prop := minInt ≤ x ∧ x ≤ maxInt

instance (x : Int) : Decidable (isInt x) := by
  unfold isInt; exact inferInstance

/-! ## Strings -/

/-- Go's `strings.HasSuffix`:
`len(s) >= len(suffix) && s[len(s)-len(suffix):] == suffix`. -/
def HasSuffix (s suffix : String) : Bool :=
  decide (suffix.data.length ≤ s.data.length) &&
    (s.data.drop (s.data.length - suffix.data.length) == suffix.data)

/-- Go's `strings.TrimSuffix`: the string without the given trailing suffix,
unchanged when it does not end in the suffix. -/
def TrimSuffix (s suffix : String) : String :=
  if HasSuffix s suffix then
    String.mk (s.data.take (s.data.length - suffix.data.length))
  else s

/-! ## Data model (`cmd/apis.go`) -/

/-- TrackedBalance contains details necessary to track a balance. -/
structure TrackedBalance where
  Address : String
  Service : String
  Balance : Int
  NumTransactions : Int
deriving DecidableEq, Repr

/-- The Go zero value `TrackedBalance{}`. -/
def TrackedBalance.zero : TrackedBalance :=
  { Address := "", Service := "", Balance := 0, NumTransactions := 0 }

/-- TrackedBalances models multiple TrackedBalance. -/
abbrev TrackedBalances := List TrackedBalance

/-- BlockchainInfoBalance is details from a query to blockchain.info/balance. -/
structure BlockchainInfoBalance where
  FinalBalance : Int
  NTx : Int
  TotalReceived : Int
deriving DecidableEq, Repr

/-- BlockchainInfoResponse is the response from an address query: a map from
address to balance, given by its entries in `range` order. -/
abbrev BlockchainInfoResponse := List (String × BlockchainInfoBalance)

/-- FeeResponse models the response from the fees API. -/
structure FeeResponse where
  FastestFee : Int
  HalfHourFee : Int
  HourFee : Int
deriving DecidableEq, Repr

/-- Wall-clock readings, as nanoseconds since the Unix epoch. -/
abbrev Time := Nat

/-- An InfluxDB point: measurement, tag map, field map and timestamp. The two
maps are kept as association lists, the entries of the source's map literals
in source order. -/
structure Point where
  measurement : String
  tags : List (String × String)
  fields : List (String × Int)
  time : Time
deriving DecidableEq, Repr

/-- Value of a tag of a point, `none` for a tag the point does not carry. -/
def Point.tag (p : Point) (key : String) : Option String := p.tags.lookup key

/-- Value of a field of a point. -/
def Point.field (p : Point) (key : String) : Option Int := p.fields.lookup key

/-- What a point says apart from its timestamp. -/
def Point.content (p : Point) : String × List (String × String) × List (String × Int) :=
  (p.measurement, p.tags, p.fields)

/-- The configuration handed to `client.NewBatchPoints`. -/
structure BatchPointsConfig where
  Precision : String
  Database : String
deriving DecidableEq, Repr

/-- An InfluxDB batch: its configuration and the points added so far. -/
structure BatchPoints where
  database : String
  precision : String
  points : List Point
deriving DecidableEq, Repr

/-- The client's `NewBatchPoints`: an empty precision defaults to `ns`, and a
precision that is not a duration unit is refused. -/
def NewBatchPoints (conf : BatchPointsConfig) : Except String BatchPoints :=
  let precision := if conf.Precision = "" then "ns" else conf.Precision
  if precision ∈ ["ns", "us", "µs", "μs", "ms", "s", "m", "h"] then
    .ok { database := conf.Database, precision := precision, points := [] }
  else
    .error ("time: unknown unit in duration 1" ++ precision)

/-- The client's `AddPoint`: `bp.points = append(bp.points, p)`. -/
def BatchPoints.AddPoint (bp : BatchPoints) (p : Point) : BatchPoints :=
  { bp with points := bp.points ++ [p] }

/-- BalanceMonitor holds methods to query balances and write them to InfluxDB.
The `InfluxClient` handle is the `write` component of the world. -/
structure BalanceMonitor where
  TrackedBalances : TrackedBalances
  BalanceAddr : String
  FeesAddr : String
  PollingInterval : Nat
  Port : String
deriving DecidableEq, Repr

/-- The parties one sampling round talks to.
* `fees url` is what `http.Get(url)` followed by the JSON decoding yields;
* `balances format arg` is the same for the URL `fmt.Sprintf(format, arg)`;
* `now k` is the reading of the `k`-th call of `time.Now()` in the round;
* `write pts` is the error `InfluxClient.Write(pts)` returns (`none` for nil),
  where `pts` is `none` for a nil batch. -/
structure World where
  fees : String → Except String FeeResponse
  balances : String → String → Except String BlockchainInfoResponse
  now : Nat → Time
  write : Option BatchPoints → Option String

/-! ## Operations (`cmd/apis.go`) -/

/-- The loop of `Addresses`: `out += fmt.Sprintf("%s|", b.Address)`. -/
def TrackedBalances.Addresses.loop (out : String) : List TrackedBalance → String
  | [] => out
  | b :: rest => TrackedBalances.Addresses.loop (out ++ (b.Address ++ "|")) rest

/-- Addresses returns the list of addresses formatted for quering. -/
def TrackedBalances.Addresses (tbs : TrackedBalances) : String :=
  TrimSuffix (TrackedBalances.Addresses.loop "" tbs) "|"

/-- Address returns an individual tracked balance. -/
def TrackedBalances.Address : TrackedBalances → String → TrackedBalance
  | [], _ => TrackedBalance.zero
  | tb :: rest, addr =>
    if tb.Address = addr then tb else TrackedBalances.Address rest addr

/-- The client's `NewPoint`, for a call it accepts. The client keeps the tags
of a point in the series key it builds from the measurement and the tag map,
and that key leaves out every tag whose value is empty: the point returned
carries the tags with a non-empty value only. The fields and the timestamp
are carried as given. `NewPoint` returns an error instead for an empty field
map, a non-finite float field, a time out of range or a series key above
65535 bytes; with the three integer fields and the clock reading of the source
only the last can arise, for an address and service of that size, and that
case is outside this model. -/
def NewPoint (name : String) (tags : List (String × String)) (fields : List (String × Int))
    (t : Time) : Point :=
  { measurement := name
    tags := tags.filter fun kv => decide (kv.2 ≠ "")
    fields := fields
    time := t }

/-- MakePoint takes all necessary data and returns an InfluxDB point. The
fourth argument is the reading of `time.Now()` at the call. The point is the
one `client.NewPoint` returns; the `panic` on its error belongs to the case
`NewPoint` leaves out. -/
def MakePoint (fees : FeeResponse) (tb : TrackedBalance) (bal : BlockchainInfoBalance)
    (now : Time) : Point :=
  let measurement := "trackedBTCAddresses"
  let tags := [("address", tb.Address), ("service", tb.Service)]
  let fields := [("balance", bal.FinalBalance),
                 ("totalReceived", bal.TotalReceived),
                 ("alertThreshold", mulInt tb.NumTransactions fees.FastestFee)]
  NewPoint measurement tags fields now

/-- GetFees fetches the fee response data. -/
def GetFees (bm : BalanceMonitor) (w : World) : Except String FeeResponse :=
  w.fees bm.FeesAddr

/-- GetAddressBalances returns the API response from the addresses query. -/
def GetAddressBalances (bm : BalanceMonitor) (w : World) :
    Except String BlockchainInfoResponse :=
  w.balances bm.BalanceAddr (TrackedBalances.Addresses bm.TrackedBalances)

/-- The `range` loop of `MakePoints`; `k` counts the clock readings taken so
far in the round. -/
def MakePoints.loop (fees : FeeResponse) (tbs : TrackedBalances) (now : Nat → Time) :
    Nat → BlockchainInfoResponse → BatchPoints → BatchPoints
  | _, [], bp => bp
  | k, (addr, det) :: rest, bp =>
    MakePoints.loop fees tbs now (k + 1) rest
      (bp.AddPoint (MakePoint fees (TrackedBalances.Address tbs addr) det (now k)))

/-- MakePoints returns the points from all the monitored addresses. -/
def MakePoints (bm : BalanceMonitor) (w : World) : Except String BatchPoints :=
  match NewBatchPoints { Database := "telegraf", Precision := "s" } with
  | .error err => .error err
  | .ok bp =>
    match GetFees bm w with
    | .error err => .error err
    | .ok fees =>
      match GetAddressBalances bm w with
      | .error err => .error err
      | .ok addrs => .ok (MakePoints.loop fees bm.TrackedBalances w.now 0 addrs bp)

/-- What one round of `Monitor` does that is visible from outside. -/
inductive Event where
  | log (msg : String)
  | write (pts : Option BatchPoints)
deriving DecidableEq, Repr

/-- The body `Monitor` runs on each tick, as the sequence of its effects. -/
def Monitor.round (bm : BalanceMonitor) (w : World) : List Event :=
  let (pts, err) : Option BatchPoints × Option String :=
    match MakePoints bm w with
    | .ok bp => (some bp, none)
    | .error e => (none, some e)
  let logged₁ := match err with
    | some e => [Event.log ("Error making points " ++ e)]
    | none => []
  let err := w.write pts
  let logged₂ := match err with
    | some e => [Event.log ("Error writing points " ++ e)]
    | none => []
  logged₁ ++ [Event.write pts] ++ logged₂

/-- The calls to the sink among the effects of a round. -/
def writes (es : List Event) : List (Option BatchPoints) :=
  es.filterMap fun e => match e with
    | .write pts => some pts
    | .log _ => none

/-! ## Liveness endpoint (`cmd/serve.go`) -/

/-- The part of an inbound request the handler reads. -/
structure Request where
  Path : String
deriving DecidableEq, Repr

/-- The handler `ping`: the bytes it writes to the response. -/
def ping (r : Request) : String :=
  let message := r.Path
  let message := "\x7b\"status\": \"ok\"\x7d"
  message

/-! ## Splitting a combined query -/

/-- Go's `strings.Split(s, sep)` for a one-character separator: the pieces of
`s` between the occurrences of `sep`. -/
def Split (s : String) (sep : Char) : List String :=
  (s.data.splitOn sep).map String.mk

/-! ## Concrete rounds -/

/-- A monitor over the given watchlist, configured as in the sample
configuration of the service. -/
def sampleMonitor (tbs : TrackedBalances) : BalanceMonitor :=
  { TrackedBalances := tbs
    BalanceAddr := "https://blockchain.info/balance?active=%s"
    FeesAddr := "https://bitcoinfees.earn.com/api/v1/fees/recommended"
    PollingInterval := 30000000000
    Port := ":3000" }

/-- A world whose endpoints answer with the given results, whose clock gives
the given readings and whose sink accepts every write. -/
def sampleWorld (fees : Except String FeeResponse)
    (addrs : Except String BlockchainInfoResponse) (now : Nat → Time) : World :=
  { fees := fun _ => fees
    balances := fun _ _ => addrs
    now := now
    write := fun _ => none }

/-- A clock that advances by one second between two readings. -/
def tickingClock (k : Nat) : Time := 1541325600000000000 + k * 1000000000

/-- A clock that stands still. -/
def frozenClock (_ : Nat) : Time := 1541325600000000000

/-! ## Auxiliary facts -/

/-- What the loop of `Addresses` has accumulated: every address followed by
one delimiter. -/
theorem Addresses_loop_data (out : String) (tbs : List TrackedBalance) :
    (TrackedBalances.Addresses.loop out tbs).data =
      out.data ++ (tbs.map fun b => b.Address.data ++ "|".data).flatten := by
  induction tbs generalizing out with
  | nil => simp [TrackedBalances.Addresses.loop]
  | cons b rest ih =>
    simp [TrackedBalances.Addresses.loop, ih, String.data_append, List.append_assoc]

/-- Moving the delimiter from behind every piece to between the pieces. -/
theorem flatten_delimited {α : Type} (sep a : List α) (rest : List (List α)) :
    a ++ sep ++ (rest.map fun x => x ++ sep).flatten =
      List.intercalate sep (a :: rest) ++ sep := by
  induction rest generalizing a with
  | nil => simp [List.intercalate]
  | cons b rest ih =>
    have h := ih b
    simp only [List.intercalate, List.intersperse_cons_cons, List.flatten_cons,
      List.map_cons, List.append_assoc] at h ⊢
    rw [h]

/-- Removing the one trailing suffix of a string built by appending it. -/
theorem TrimSuffix_append (x suffix : String) :
    TrimSuffix (x ++ suffix) suffix = x := by
  have hle : suffix.data.length ≤ (x ++ suffix).data.length := by
    simp [String.data_append]
  have hsub : (x ++ suffix).data.length - suffix.data.length = x.data.length := by
    simp [String.data_append]
  have hs : HasSuffix (x ++ suffix) suffix = true := by
    simp only [HasSuffix, hsub, String.data_append, List.drop_left]
    simp
  simp only [TrimSuffix, hs, hsub, String.data_append, List.take_left]
  simp

/-- The characters of the combined query are the addresses with the delimiter
between them. -/
theorem Addresses_data (tbs : TrackedBalances) :
    (TrackedBalances.Addresses tbs).data =
      List.intercalate "|".data (tbs.map fun b => b.Address.data) := by
  cases tbs with
  | nil => decide
  | cons b rest =>
    have hloop : TrackedBalances.Addresses.loop "" (b :: rest) =
        String.mk (List.intercalate "|".data ((b :: rest).map fun b => b.Address.data)) ++ "|" := by
      apply String.ext
      rw [Addresses_loop_data, String.data_append]
      have h := flatten_delimited "|".data b.Address.data (rest.map fun b => b.Address.data)
      simp only [List.map_map, List.map_cons] at h ⊢
      simpa [Function.comp_def] using h
    unfold TrackedBalances.Addresses
    rw [hloop, TrimSuffix_append]

/-- The characters of the library join of strings. -/
theorem intercalate_go_data (acc s : String) (l : List String) :
    (String.intercalate.go acc s l).data =
      acc.data ++ (l.map fun a => s.data ++ a.data).flatten := by
  induction l generalizing acc with
  | nil => simp [String.intercalate.go]
  | cons a rest ih =>
    simp [String.intercalate.go, ih, String.data_append, List.append_assoc]

/-- The delimiter in front of every piece but the first. -/
theorem intercalate_cons_data {α : Type} (sep a : List α) (rest : List (List α)) :
    List.intercalate sep (a :: rest) = a ++ (rest.map fun x => sep ++ x).flatten := by
  induction rest generalizing a with
  | nil => simp [List.intercalate]
  | cons b rest ih =>
    have h := ih b
    simp only [List.intercalate, List.intersperse_cons_cons, List.flatten_cons,
      List.map_cons, List.append_assoc] at h ⊢
    rw [h]

/-- The library join of strings, on characters. -/
theorem intercalate_data (s : String) (l : List String) :
    (s.intercalate l).data = List.intercalate s.data (l.map String.data) := by
  cases l with
  | nil => simp [String.intercalate, List.intercalate]
  | cons a rest =>
    rw [String.intercalate, intercalate_go_data, List.map_cons, intercalate_cons_data,
      List.map_map]
    simp [Function.comp_def]

/-- The lookup, once the head of the watchlist has been passed over. -/
theorem Address_append (pre rest : List TrackedBalance) (addr : String)
    (h : ∀ x ∈ pre, x.Address ≠ addr) :
    TrackedBalances.Address (pre ++ rest) addr = TrackedBalances.Address rest addr := by
  induction pre with
  | nil => rfl
  | cons x pre ih =>
    have hx : x.Address ≠ addr := h x (List.mem_cons_self _ _)
    have hpre : ∀ y ∈ pre, y.Address ≠ addr := fun y hy => h y (List.mem_cons_of_mem _ hy)
    simp [TrackedBalances.Address, hx, ih hpre]

/-- The lookup of an address no entry carries. -/
theorem Address_absent (tbs : List TrackedBalance) (addr : String)
    (h : ∀ x ∈ tbs, x.Address ≠ addr) :
    TrackedBalances.Address tbs addr = TrackedBalance.zero := by
  have := Address_append tbs [] addr h
  simpa [TrackedBalances.Address] using this

/-- The lookup of an address some entry carries returns an entry of the
watchlist with that address. -/
theorem Address_present (tbs : List TrackedBalance) (addr : String)
    (h : ∃ x ∈ tbs, x.Address = addr) :
    TrackedBalances.Address tbs addr ∈ tbs ∧
      (TrackedBalances.Address tbs addr).Address = addr := by
  induction tbs with
  | nil => simp at h
  | cons x rest ih =>
    by_cases hx : x.Address = addr
    · simp [TrackedBalances.Address, hx]
    · have hrest : ∃ y ∈ rest, y.Address = addr := by
        obtain ⟨y, hy, hya⟩ := h
        rcases List.mem_cons.mp hy with rfl | hy
        · exact absurd hya hx
        · exact ⟨y, hy, hya⟩
      have := ih hrest
      simp [TrackedBalances.Address, hx, this.1, this.2]

/-- The loop of `MakePoints` appends one point per entry, in the order the
entries are visited, the entry at position `i` with the clock reading
`now (k + i)`. -/
theorem MakePoints_loop_eq (fees : FeeResponse) (tbs : TrackedBalances) (now : Nat → Time)
    (k : Nat) (addrs : BlockchainInfoResponse) (bp : BatchPoints) :
    MakePoints.loop fees tbs now k addrs bp =
      { bp with points := bp.points ++ (addrs.enumFrom k).map fun ie =>
          MakePoint fees (TrackedBalances.Address tbs ie.2.1) ie.2.2 (now ie.1) } := by
  induction addrs generalizing k bp with
  | nil => simp [MakePoints.loop]
  | cons e rest ih =>
    obtain ⟨addr, det⟩ := e
    simp [MakePoints.loop, ih, BatchPoints.AddPoint, List.enumFrom_cons]

/-- The batch `MakePoints` returns when both fetches succeed. -/
theorem MakePoints_ok (bm : BalanceMonitor) (w : World) (fees : FeeResponse)
    (addrs : BlockchainInfoResponse) (hf : GetFees bm w = .ok fees)
    (ha : GetAddressBalances bm w = .ok addrs) :
    MakePoints bm w = .ok
      { database := "telegraf", precision := "s",
        points := (addrs.enumFrom 0).map fun ie =>
          MakePoint fees (TrackedBalances.Address bm.TrackedBalances ie.2.1) ie.2.2
            (w.now ie.1) } := by
  have hnew : NewBatchPoints { Database := "telegraf", Precision := "s" } =
      .ok { database := "telegraf", precision := "s", points := [] } := by
    rfl
  simp only [MakePoints, hnew, hf, ha, MakePoints_loop_eq]
  simp

/-- The point at position `i` of the batch comes from the entry at position `i`
and carries the `i`-th clock reading. -/
theorem points_getElem? (fees : FeeResponse) (tbs : TrackedBalances) (now : Nat → Time)
    (addrs : BlockchainInfoResponse) (i : Nat) :
    ((addrs.enumFrom 0).map fun ie =>
        MakePoint fees (TrackedBalances.Address tbs ie.2.1) ie.2.2 (now ie.1))[i]? =
      addrs[i]?.map fun e => MakePoint fees (TrackedBalances.Address tbs e.1) e.2 (now i) := by
  rw [List.getElem?_map, List.getElem?_enumFrom]
  cases addrs[i]? <;> simp

/-- Every point of the batch comes from an entry of the response. -/
theorem points_mem (fees : FeeResponse) (tbs : TrackedBalances) (now : Nat → Time)
    (addrs : BlockchainInfoResponse) (p : Point)
    (hp : p ∈ (addrs.enumFrom 0).map fun ie =>
        MakePoint fees (TrackedBalances.Address tbs ie.2.1) ie.2.2 (now ie.1)) :
    ∃ e ∈ addrs, ∃ t, p = MakePoint fees (TrackedBalances.Address tbs e.1) e.2 t := by
  obtain ⟨i, hi⟩ := List.mem_iff_getElem?.mp hp
  rw [points_getElem?] at hi
  cases he : addrs[i]? with
  | none => simp [he] at hi
  | some e =>
    simp only [he, Option.map_some', Option.some.injEq] at hi
    exact ⟨e, List.mem_iff_getElem?.mpr ⟨i, he⟩, now i, hi.symm⟩

/-- The address tag of a point is the address of the tracked balance it was
built from, and is missing when that address is empty. -/
theorem tag_address_MakePoint (fees : FeeResponse) (tb : TrackedBalance)
    (bal : BlockchainInfoBalance) (t : Time) :
    (MakePoint fees tb bal t).tag "address" =
      if tb.Address = "" then none else some tb.Address := by
  by_cases ha : tb.Address = "" <;> by_cases hs : tb.Service = "" <;>
    simp [MakePoint, NewPoint, Point.tag, List.lookup, List.filter, ha, hs]

/-- The service tag of a point is the service of the tracked balance it was
built from, and is missing when that service is empty. -/
theorem tag_service_MakePoint (fees : FeeResponse) (tb : TrackedBalance)
    (bal : BlockchainInfoBalance) (t : Time) :
    (MakePoint fees tb bal t).tag "service" =
      if tb.Service = "" then none else some tb.Service := by
  by_cases ha : tb.Address = "" <;> by_cases hs : tb.Service = "" <;>
    simp [MakePoint, NewPoint, Point.tag, List.lookup, List.filter, ha, hs]

/-- The fields of a point. -/
theorem fields_MakePoint (fees : FeeResponse) (tb : TrackedBalance)
    (bal : BlockchainInfoBalance) (t : Time) :
    (MakePoint fees tb bal t).fields =
      [("balance", bal.FinalBalance), ("totalReceived", bal.TotalReceived),
        ("alertThreshold", mulInt tb.NumTransactions fees.FastestFee)] := rfl

/-! ## The claims -/

/-- C1 (as amended): the alertThreshold field of the record `MakePoint` builds is
the product `NumTransactions * FastestFee` reduced to the 64-bit two's
complement range of Go's `int`; it is the exact integer product whenever that
product lies in the range of `int`. -/
theorem MakePoint_alertThreshold (f : FeeResponse) (w : TrackedBalance)
    (b : BlockchainInfoBalance) (now : Time) :
    (MakePoint f w b now).field "alertThreshold" =
        some (wrapInt (w.NumTransactions * f.FastestFee)) ∧
      (isInt (w.NumTransactions * f.FastestFee) →
        (MakePoint f w b now).field "alertThreshold" =
          some (w.NumTransactions * f.FastestFee)) := by
  have hfield : (MakePoint f w b now).field "alertThreshold" =
      some (wrapInt (w.NumTransactions * f.FastestFee)) := by
    simp [MakePoint, NewPoint, Point.field, List.lookup, mulInt]
  refine ⟨hfield, ?_⟩
  intro h
  rw [hfield]
  have h1 : minInt ≤ w.NumTransactions * f.FastestFee := h.1
  have h2 : w.NumTransactions * f.FastestFee ≤ maxInt := h.2
  simp only [minInt, maxInt, intBits] at h1 h2
  simp only [wrapInt, intBits]
  congr 1
  omega

/-- C1, at a concrete input: 5 transactions at a fastest fee of 10 give the
threshold 50. -/
theorem MakePoint_alertThreshold_witness :
    isInt ((5 : Int) * 10) ∧
      (MakePoint ⟨10, 0, 0⟩ ⟨"addr1", "svcA", 0, 5⟩ ⟨100, 0, 500⟩ 0).field "alertThreshold" =
        some 50 :=
  ⟨by decide,
   (MakePoint_alertThreshold ⟨10, 0, 0⟩ ⟨"addr1", "svcA", 0, 5⟩ ⟨100, 0, 500⟩ 0).2 (by decide)⟩

/-- C1, as stated, fails: with `NumTransactions = 2^62` and `FastestFee = 4`,
both values of Go's `int`, the product is `2^64` and the field holds 0. -/
theorem MakePoint_alertThreshold_overflow :
    isInt (2 ^ 62) ∧ isInt 4 ∧
      (MakePoint ⟨4, 0, 0⟩ ⟨"addr1", "svcA", 0, 2 ^ 62⟩ ⟨0, 0, 0⟩ 0).field "alertThreshold" =
        some 0 ∧
      (MakePoint ⟨4, 0, 0⟩ ⟨"addr1", "svcA", 0, 2 ^ 62⟩ ⟨0, 0, 0⟩ 0).field "alertThreshold" ≠
        some ((2 : Int) ^ 62 * 4) := by
  decide

/-- C6: for every watchlist, `Addresses` is the addresses of the entries, in
watchlist order, joined with the delimiter `|` and nothing after the last
address; the empty watchlist gives the empty string and the addresses
a, b, c give `a|b|c`. -/
theorem Addresses_eq_intercalate :
    (∀ tbs : TrackedBalances,
        TrackedBalances.Addresses tbs = "|".intercalate (tbs.map fun b => b.Address)) ∧
      TrackedBalances.Addresses [] = "" ∧
      (∀ (s₁ s₂ s₃ : String) (b₁ b₂ b₃ n₁ n₂ n₃ : Int),
        TrackedBalances.Addresses [⟨"a", s₁, b₁, n₁⟩, ⟨"b", s₂, b₂, n₂⟩, ⟨"c", s₃, b₃, n₃⟩] =
          "a|b|c") := by
  have hall : ∀ tbs : TrackedBalances,
      TrackedBalances.Addresses tbs = "|".intercalate (tbs.map fun b => b.Address) := by
    intro tbs
    apply String.ext
    rw [Addresses_data, intercalate_data, List.map_map]
    rfl
  refine ⟨hall, by decide, ?_⟩
  intro s₁ s₂ s₃ b₁ b₂ b₃ n₁ n₂ n₃
  rw [hall]
  show "|".intercalate ["a", "b", "c"] = "a|b|c"
  decide

/-- C7: `Address` is total. When some entry of the watchlist has the address
asked for, it returns the first such entry in watchlist order, so the result
carries that address; otherwise it returns the zero-valued record (empty
address, empty service, balance 0, numTransactions 0). -/
theorem Address_first_match_or_zero (tbs : TrackedBalances) (addr : String) :
    ((∃ tb ∈ tbs, tb.Address = addr) →
        ∃ pre tb post, tbs = pre ++ tb :: post ∧ (∀ x ∈ pre, x.Address ≠ addr) ∧
          tb.Address = addr ∧ TrackedBalances.Address tbs addr = tb ∧
          (TrackedBalances.Address tbs addr).Address = addr) ∧
      ((¬ ∃ tb ∈ tbs, tb.Address = addr) →
        TrackedBalances.Address tbs addr =
          { Address := "", Service := "", Balance := 0, NumTransactions := 0 }) := by
  constructor
  · intro h
    induction tbs with
    | nil => simp at h
    | cons x rest ih =>
      by_cases hx : x.Address = addr
      · exact ⟨[], x, rest, rfl, by simp, hx, by simp [TrackedBalances.Address, hx],
          by simp [TrackedBalances.Address, hx]⟩
      · have hrest : ∃ y ∈ rest, y.Address = addr := by
          obtain ⟨y, hy, hya⟩ := h
          rcases List.mem_cons.mp hy with rfl | hy
          · exact absurd hya hx
          · exact ⟨y, hy, hya⟩
        obtain ⟨pre, tb, post, hsplit, hpre, htb, hres, hresa⟩ := ih hrest
        refine ⟨x :: pre, tb, post, by simp [hsplit], ?_, htb, ?_, ?_⟩
        · intro y hy
          rcases List.mem_cons.mp hy with rfl | hy
          · exact hx
          · exact hpre y hy
        · simp [TrackedBalances.Address, hx, hres]
        · simp [TrackedBalances.Address, hx, hresa]
  · intro h
    have h' : ∀ x ∈ tbs, x.Address ≠ addr := fun x hx hxa => h ⟨x, hx, hxa⟩
    exact Address_absent tbs addr h'

/-- C7, at a concrete watchlist with two entries for the same address: the
result carries the address asked for; an address no entry carries gives the
zero record. -/
theorem Address_first_match_or_zero_witness :
    (TrackedBalances.Address
        [⟨"x", "s0", 1, 2⟩, ⟨"a", "s1", 3, 4⟩, ⟨"a", "s2", 5, 6⟩] "a").Address = "a" ∧
      TrackedBalances.Address [⟨"x", "s0", 1, 2⟩, ⟨"a", "s1", 3, 4⟩, ⟨"a", "s2", 5, 6⟩] "b" =
        ⟨"", "", 0, 0⟩ :=
  ⟨((Address_first_match_or_zero
        [⟨"x", "s0", 1, 2⟩, ⟨"a", "s1", 3, 4⟩, ⟨"a", "s2", 5, 6⟩] "a").1 (by decide)).elim
      fun _ h => h.elim fun _ h => h.elim fun _ h => h.2.2.2.2,
   (Address_first_match_or_zero
        [⟨"x", "s0", 1, 2⟩, ⟨"a", "s1", 3, 4⟩, ⟨"a", "s2", 5, 6⟩] "b").2 (by decide)⟩

/-- C9: for every inbound request, whatever its path, `ping` writes the same
body, the bytes of the fixed status document; the body depends neither on the
request nor on anything the monitoring pipeline holds. -/
theorem ping_constant :
    (∀ r : Request, ping r = "\x7b\"status\": \"ok\"\x7d") ∧
      (∀ r₁ r₂ : Request, ping r₁ = ping r₂) ∧
      (ping ⟨"/"⟩).data = [Char.ofNat 123, Char.ofNat 34, Char.ofNat 115, Char.ofNat 116,
        Char.ofNat 97, Char.ofNat 116, Char.ofNat 117, Char.ofNat 115, Char.ofNat 34,
        Char.ofNat 58, Char.ofNat 32, Char.ofNat 34, Char.ofNat 111, Char.ofNat 107,
        Char.ofNat 34, Char.ofNat 125] :=
  ⟨fun _ => rfl, fun _ _ => rfl, by decide⟩

/-- C10: for every non-empty watchlist whose addresses are all non-empty and
free of the delimiter, splitting `Addresses` on the delimiter gives back the
addresses in watchlist order; and there is a watchlist with an address that
contains the delimiter for which the split does not give the addresses back. -/
theorem Split_Addresses_roundtrip :
    (∀ tbs : TrackedBalances, tbs ≠ [] →
        (∀ tb ∈ tbs, tb.Address ≠ "" ∧ '|' ∉ tb.Address.data) →
        Split (TrackedBalances.Addresses tbs) '|' = tbs.map fun b => b.Address) ∧
      (∃ tbs : TrackedBalances,
        (∃ tb ∈ tbs, '|' ∈ tb.Address.data ∨ tb.Address = "") ∧
          Split (TrackedBalances.Addresses tbs) '|' ≠ tbs.map fun b => b.Address) := by
  constructor
  · intro tbs hne hall
    unfold Split
    rw [Addresses_data]
    have hsplit : (List.intercalate ['|'] (tbs.map fun b => b.Address.data)).splitOn '|' =
        tbs.map fun b => b.Address.data := List.splitOn_intercalate _ '|'
      (by
        intro l hl
        obtain ⟨b, hb, rfl⟩ := List.mem_map.mp hl
        exact (hall b hb).2)
      (by simpa using hne)
    have hbar : "|".data = ['|'] := rfl
    rw [hbar, hsplit, List.map_map]
    rfl
  · exact ⟨[⟨"a|b", "svc", 0, 0⟩], ⟨_, List.mem_singleton_self _, Or.inl (by decide)⟩,
      by decide⟩

/-- C10, at the watchlist with the addresses a, b, c. -/
theorem Split_Addresses_roundtrip_witness :
    Split (TrackedBalances.Addresses [⟨"a", "s", 0, 1⟩, ⟨"b", "s", 0, 2⟩, ⟨"c", "s", 0, 3⟩]) '|' =
      ["a", "b", "c"] :=
  Split_Addresses_roundtrip.1 [⟨"a", "s", 0, 1⟩, ⟨"b", "s", 0, 2⟩, ⟨"c", "s", 0, 3⟩]
    (by decide) (by decide)


/-- C2, evaluated where it fails: the watchlist holds only addr1 and the
response holds an entry for another address. `MakePoints` looks that address
up to the zero-valued tracked balance and returns a batch with one record for
it: no tags, balance 7, totalReceived 9, alertThreshold 0. The record carries
no address tag, so none that is an address of the watchlist, and it is a record
for an address that is not monitored. -/
theorem MakePoints_unlisted_address_recorded :
    MakePoints (sampleMonitor [⟨"addr1", "svcA", 0, 5⟩])
        (sampleWorld (.ok ⟨10, 5, 1⟩) (.ok [("other", ⟨7, 1, 9⟩)]) frozenClock) =
      .ok { database := "telegraf", precision := "s",
            points := [{ measurement := "trackedBTCAddresses"
                         tags := []
                         fields := [("balance", 7), ("totalReceived", 9),
                                    ("alertThreshold", 0)]
                         time := frozenClock 0 }] } ∧
      (∀ tb ∈ (sampleMonitor [⟨"addr1", "svcA", 0, 5⟩]).TrackedBalances,
        tb.Address ≠ "other") ∧
      TrackedBalances.Address (sampleMonitor [⟨"addr1", "svcA", 0, 5⟩]).TrackedBalances
        "other" = TrackedBalance.zero ∧
      (MakePoint ⟨10, 5, 1⟩ TrackedBalance.zero ⟨7, 1, 9⟩ (frozenClock 0)).tag "address" =
        none := by
  refine ⟨rfl, by decide, by decide, by decide⟩

/-- C3: for every watchlist, every address A that is in the watchlist, and
every balance response that has no entry for A, the batch `MakePoints`
assembles (it assembles one whenever both fetches succeed) contains no record
whose address tag is A. -/
theorem MakePoints_omitted_address (bm : BalanceMonitor) (w : World) (fees : FeeResponse)
    (addrs : BlockchainInfoResponse) (A : String) (hf : GetFees bm w = .ok fees)
    (ha : GetAddressBalances bm w = .ok addrs)
    (_hA : ∃ tb ∈ bm.TrackedBalances, tb.Address = A)
    (habs : ∀ e ∈ addrs, e.1 ≠ A) :
    ∃ bp, MakePoints bm w = .ok bp ∧ ∀ p ∈ bp.points, p.tag "address" ≠ some A := by
  refine ⟨_, MakePoints_ok bm w fees addrs hf ha, ?_⟩
  intro p hp htag
  obtain ⟨e, he, t, rfl⟩ := points_mem fees bm.TrackedBalances w.now addrs p hp
  rw [tag_address_MakePoint] at htag
  by_cases hempty : (TrackedBalances.Address bm.TrackedBalances e.1).Address = ""
  · simp [hempty] at htag
  · simp only [hempty, if_false, Option.some.injEq] at htag
    by_cases h : ∃ tb ∈ bm.TrackedBalances, tb.Address = e.1
    · exact habs e he ((Address_present _ _ h).2.symm.trans htag)
    · have h' : ∀ x ∈ bm.TrackedBalances, x.Address ≠ e.1 := fun x hx hxa => h ⟨x, hx, hxa⟩
      rw [Address_absent _ _ h'] at hempty
      exact hempty rfl

/-- C3, at a concrete round: addr2 is monitored, the response has an entry
for addr1 only, and no record of the batch is tagged addr2. -/
theorem MakePoints_omitted_address_witness :
    ∃ bp, MakePoints (sampleMonitor [⟨"addr1", "svcA", 0, 5⟩, ⟨"addr2", "svcB", 0, 7⟩])
        (sampleWorld (.ok ⟨10, 5, 1⟩) (.ok [("addr1", ⟨100, 3, 500⟩)]) frozenClock) = .ok bp ∧
      ∀ p ∈ bp.points, p.tag "address" ≠ some "addr2" :=
  MakePoints_omitted_address (sampleMonitor [⟨"addr1", "svcA", 0, 5⟩, ⟨"addr2", "svcB", 0, 7⟩])
    (sampleWorld (.ok ⟨10, 5, 1⟩) (.ok [("addr1", ⟨100, 3, 500⟩)]) frozenClock)
    ⟨10, 5, 1⟩ [("addr1", ⟨100, 3, 500⟩)] "addr2" rfl rfl (by decide) (by decide)

/-- C4 (as amended): when both fetches succeed, `MakePoints` returns a batch
that holds exactly one record per entry of the balance response: as many
records as entries, the record at position `i` of the visiting order being
`MakePoint(fees, Address(addr), bal)` for the entry `(addr, bal)` visited at
position `i`, and the records, timestamps apart, being a rearrangement of
what any enumeration of the response gives. The record of an entry carries the
address tag of the watchlist entry `Address(addr)` finds when that address is
not empty and no address tag when it is empty, the service tag of that entry
when that service is not empty and no service tag when it is empty,
balance = `bal.FinalBalance`, totalReceived = `bal.TotalReceived` and
alertThreshold = `NumTransactions * FastestFee` as Go multiplies two `int`s,
which is the exact product whenever that lies in the range of `int`. -/
theorem MakePoints_one_record_per_entry (bm : BalanceMonitor) (w : World)
    (fees : FeeResponse) (addrs : BlockchainInfoResponse) (hf : GetFees bm w = .ok fees)
    (ha : GetAddressBalances bm w = .ok addrs) :
    ∃ bp, MakePoints bm w = .ok bp ∧
      bp.points.length = addrs.length ∧
      (∀ (i : Nat) (addr : String) (bal : BlockchainInfoBalance),
        addrs[i]? = some (addr, bal) →
        bp.points[i]? = some
          (MakePoint fees (TrackedBalances.Address bm.TrackedBalances addr) bal (w.now i))) ∧
      (∀ m : BlockchainInfoResponse, m.Perm addrs →
        (bp.points.map Point.content).Perm (m.map fun e =>
          (MakePoint fees (TrackedBalances.Address bm.TrackedBalances e.1) e.2 0).content)) ∧
      (∀ (i : Nat) (addr : String) (bal : BlockchainInfoBalance) (p : Point),
        addrs[i]? = some (addr, bal) → bp.points[i]? = some p →
        p.measurement = "trackedBTCAddresses" ∧
        ((TrackedBalances.Address bm.TrackedBalances addr).Address ≠ "" →
          p.tag "address" = some (TrackedBalances.Address bm.TrackedBalances addr).Address) ∧
        ((TrackedBalances.Address bm.TrackedBalances addr).Address = "" →
          p.tag "address" = none) ∧
        ((TrackedBalances.Address bm.TrackedBalances addr).Service ≠ "" →
          p.tag "service" = some (TrackedBalances.Address bm.TrackedBalances addr).Service) ∧
        ((TrackedBalances.Address bm.TrackedBalances addr).Service = "" →
          p.tag "service" = none) ∧
        p.field "balance" = some bal.FinalBalance ∧
        p.field "totalReceived" = some bal.TotalReceived ∧
        p.field "alertThreshold" = some (mulInt
          (TrackedBalances.Address bm.TrackedBalances addr).NumTransactions fees.FastestFee) ∧
        (isInt ((TrackedBalances.Address bm.TrackedBalances addr).NumTransactions *
            fees.FastestFee) →
          p.field "alertThreshold" = some
            ((TrackedBalances.Address bm.TrackedBalances addr).NumTransactions *
              fees.FastestFee))) := by
  have hget : ∀ i addr bal, addrs[i]? = some (addr, bal) →
      ((addrs.enumFrom 0).map fun ie =>
        MakePoint fees (TrackedBalances.Address bm.TrackedBalances ie.2.1) ie.2.2
          (w.now ie.1))[i]? = some
        (MakePoint fees (TrackedBalances.Address bm.TrackedBalances addr) bal (w.now i)) := by
    intro i addr bal hi
    rw [points_getElem?, hi]
    rfl
  refine ⟨_, MakePoints_ok bm w fees addrs hf ha, by simp, hget, ?_, ?_⟩
  · intro m hm
    have hcontent : (((addrs.enumFrom 0).map fun ie =>
        MakePoint fees (TrackedBalances.Address bm.TrackedBalances ie.2.1) ie.2.2
          (w.now ie.1)).map Point.content) =
        addrs.map fun e =>
          (MakePoint fees (TrackedBalances.Address bm.TrackedBalances e.1) e.2 0).content := by
      rw [List.map_map]
      conv_rhs => rw [← List.enumFrom_map_snd 0 addrs, List.map_map]
      rfl
    show List.Perm (List.map Point.content _) _
    rw [hcontent]
    exact (hm.map _).symm
  · intro i addr bal p hi hp
    rw [hget i addr bal hi] at hp
    obtain rfl := Option.some.inj hp
    have hthr : (MakePoint fees (TrackedBalances.Address bm.TrackedBalances addr) bal
        (w.now i)).field "alertThreshold" = some (mulInt
          (TrackedBalances.Address bm.TrackedBalances addr).NumTransactions
          fees.FastestFee) := by
      simp [Point.field, fields_MakePoint, List.lookup]
    refine ⟨rfl, ?_, ?_, ?_, ?_, ?_, ?_, hthr, ?_⟩
    · intro h
      rw [tag_address_MakePoint, if_neg h]
    · intro h
      rw [tag_address_MakePoint, if_pos h]
    · intro h
      rw [tag_service_MakePoint, if_neg h]
    · intro h
      rw [tag_service_MakePoint, if_pos h]
    · simp [Point.field, fields_MakePoint, List.lookup]
    · simp [Point.field, fields_MakePoint, List.lookup]
    · intro hrange
      rw [hthr]
      have h1 := hrange.1
      have h2 := hrange.2
      simp only [minInt, maxInt, intBits] at h1 h2
      simp only [mulInt, wrapInt, intBits]
      congr 1
      omega

/-- C4, at the round of the specification: watchlist addr1 / svcA with 5
transactions, fastest fee 10, response addr1 with final balance 100 and total
received 500; the batch is the single record with those tags, balance 100,
totalReceived 500 and alertThreshold 50. -/
theorem MakePoints_one_record_per_entry_witness :
    ∃ bp, MakePoints (sampleMonitor [⟨"addr1", "svcA", 0, 5⟩])
        (sampleWorld (.ok ⟨10, 5, 1⟩) (.ok [("addr1", ⟨100, 3, 500⟩)]) frozenClock) = .ok bp ∧
      bp.points.length = 1 ∧
      bp.points[0]? = some
        { measurement := "trackedBTCAddresses"
          tags := [("address", "addr1"), ("service", "svcA")]
          fields := [("balance", 100), ("totalReceived", 500), ("alertThreshold", 50)]
          time := frozenClock 0 } := by
  obtain ⟨bp, hbp, hlen, hget, _, _⟩ := MakePoints_one_record_per_entry
    (sampleMonitor [⟨"addr1", "svcA", 0, 5⟩])
    (sampleWorld (.ok ⟨10, 5, 1⟩) (.ok [("addr1", ⟨100, 3, 500⟩)]) frozenClock)
    ⟨10, 5, 1⟩ [("addr1", ⟨100, 3, 500⟩)] rfl rfl
  refine ⟨bp, hbp, hlen, ?_⟩
  rw [hget 0 "addr1" ⟨100, 3, 500⟩ rfl]
  decide

/-- C4, as stated, fails: the watchlist entry for addr1 has an empty service,
the response has an entry for addr1, and the one record of the batch carries
the address tag of the entry but no service tag, where the claim has the
service tag copied from the entry `Address` finds. -/
theorem MakePoints_empty_service_untagged :
    MakePoints (sampleMonitor [⟨"addr1", "", 0, 5⟩])
        (sampleWorld (.ok ⟨10, 5, 1⟩) (.ok [("addr1", ⟨100, 3, 500⟩)]) frozenClock) =
      .ok { database := "telegraf", precision := "s",
            points := [{ measurement := "trackedBTCAddresses"
                         tags := [("address", "addr1")]
                         fields := [("balance", 100), ("totalReceived", 500),
                                    ("alertThreshold", 50)]
                         time := frozenClock 0 }] } ∧
      TrackedBalances.Address (sampleMonitor [⟨"addr1", "", 0, 5⟩]).TrackedBalances "addr1" =
        ⟨"addr1", "", 0, 5⟩ ∧
      (MakePoint ⟨10, 5, 1⟩ ⟨"addr1", "", 0, 5⟩ ⟨100, 3, 500⟩ (frozenClock 0)).tag "service" ≠
        some (TrackedBalances.Address
          (sampleMonitor [⟨"addr1", "", 0, 5⟩]).TrackedBalances "addr1").Service := by
  refine ⟨rfl, by decide, by decide⟩

/-- C8 (as amended): when both fetches succeed, the record at position `i`
of the batch carries the wall-clock reading taken when that record was built,
the `i`-th reading of the round. Two records of a batch have equal timestamps
exactly when the two readings are equal; in particular all timestamps of a
batch are equal when the clock does not advance while the batch is built. -/
theorem MakePoints_timestamps (bm : BalanceMonitor) (w : World) (fees : FeeResponse)
    (addrs : BlockchainInfoResponse) (hf : GetFees bm w = .ok fees)
    (ha : GetAddressBalances bm w = .ok addrs) :
    ∃ bp, MakePoints bm w = .ok bp ∧
      (∀ i p, bp.points[i]? = some p → p.time = w.now i) ∧
      (∀ i j p q, bp.points[i]? = some p → bp.points[j]? = some q →
        (p.time = q.time ↔ w.now i = w.now j)) ∧
      ((∀ i j, w.now i = w.now j) →
        ∀ p ∈ bp.points, ∀ q ∈ bp.points, p.time = q.time) := by
  have htime : ∀ i p, ((addrs.enumFrom 0).map fun ie =>
      MakePoint fees (TrackedBalances.Address bm.TrackedBalances ie.2.1) ie.2.2
        (w.now ie.1))[i]? = some p → p.time = w.now i := by
    intro i p hp
    rw [points_getElem?] at hp
    cases he : addrs[i]? with
    | none => simp [he] at hp
    | some e =>
      simp only [he, Option.map_some', Option.some.injEq] at hp
      rw [← hp]
      rfl
  refine ⟨_, MakePoints_ok bm w fees addrs hf ha, htime, ?_, ?_⟩
  · intro i j p q hp hq
    rw [htime i p hp, htime j q hq]
  · intro hclock p hp q hq
    obtain ⟨i, hi⟩ := List.mem_iff_getElem?.mp hp
    obtain ⟨j, hj⟩ := List.mem_iff_getElem?.mp hq
    rw [htime i p hi, htime j q hj]
    exact hclock i j

/-- C8, at a concrete round with two entries and a clock that stands still:
the two records carry the same timestamp. -/
theorem MakePoints_timestamps_witness :
    ∃ bp, MakePoints (sampleMonitor [⟨"addr1", "svcA", 0, 5⟩, ⟨"addr2", "svcB", 0, 7⟩])
        (sampleWorld (.ok ⟨10, 5, 1⟩)
          (.ok [("addr1", ⟨100, 3, 500⟩), ("addr2", ⟨40, 2, 60⟩)]) frozenClock) = .ok bp ∧
      ∀ p ∈ bp.points, ∀ q ∈ bp.points, p.time = q.time := by
  obtain ⟨bp, hbp, _, _, h⟩ := MakePoints_timestamps
    (sampleMonitor [⟨"addr1", "svcA", 0, 5⟩, ⟨"addr2", "svcB", 0, 7⟩])
    (sampleWorld (.ok ⟨10, 5, 1⟩)
      (.ok [("addr1", ⟨100, 3, 500⟩), ("addr2", ⟨40, 2, 60⟩)]) frozenClock)
    ⟨10, 5, 1⟩ [("addr1", ⟨100, 3, 500⟩), ("addr2", ⟨40, 2, 60⟩)] rfl rfl
  exact ⟨bp, hbp, h fun _ _ => rfl⟩

/-- C8, as stated, fails: with two entries in the response and a clock that
advances by one second between its readings, the batch holds two records
whose timestamps differ, also when cut to whole seconds. -/
theorem MakePoints_timestamps_differ :
    ∃ bp, MakePoints (sampleMonitor [⟨"addr1", "svcA", 0, 5⟩, ⟨"addr2", "svcB", 0, 7⟩])
        (sampleWorld (.ok ⟨10, 5, 1⟩)
          (.ok [("addr1", ⟨100, 3, 500⟩), ("addr2", ⟨40, 2, 60⟩)]) tickingClock) = .ok bp ∧
      bp.points.length = 2 ∧
      ∃ p ∈ bp.points, ∃ q ∈ bp.points,
        p.time ≠ q.time ∧ p.time / 1000000000 ≠ q.time / 1000000000 := by
  refine ⟨_, rfl, rfl, _, List.mem_cons_self _ _, _,
    List.mem_cons_of_mem _ (List.mem_singleton_self _), by decide, by decide⟩

/-- C5, evaluated where it fails: in a round whose fee fetch fails,
`MakePoints` returns the error and no batch, the error is logged, and the round
goes on to issue one call to the sink, with the nil batch. The same holds when
the balance fetch fails. -/
theorem Monitor_round_writes_after_failed_fetch :
    MakePoints (sampleMonitor [⟨"addr1", "svcA", 0, 5⟩])
        (sampleWorld (.error "timeout") (.ok [("addr1", ⟨100, 3, 500⟩)]) frozenClock) =
      .error "timeout" ∧
    Monitor.round (sampleMonitor [⟨"addr1", "svcA", 0, 5⟩])
        (sampleWorld (.error "timeout") (.ok [("addr1", ⟨100, 3, 500⟩)]) frozenClock) =
      [Event.log "Error making points timeout", Event.write none] ∧
    writes (Monitor.round (sampleMonitor [⟨"addr1", "svcA", 0, 5⟩])
        (sampleWorld (.error "timeout") (.ok [("addr1", ⟨100, 3, 500⟩)]) frozenClock)) =
      [none] ∧
    writes (Monitor.round (sampleMonitor [⟨"addr1", "svcA", 0, 5⟩])
        (sampleWorld (.ok ⟨10, 5, 1⟩) (.error "bad json") frozenClock)) = [none] := by
  refine ⟨rfl, ?_, ?_, ?_⟩ <;> decide

end Cmd
